import Mathlib

/-!
Verification of the gofilter repository: a shallow embedding of the
dynamic predicate engine (`filter` package) and the query-string compiler
(`query` package), with theorems settling the frozen claims about field
resolution, the value comparator, the leaf operators, the boolean
combinators, sorting, pagination, struct-tag registry and value coercion.

Machine integers are modelled as mathematical integers together with an
explicit kind (width and signedness); Go conversions reduce modulo 2^width.
Fallible Go functions returning `(T, error)` are modelled as `Except String T`.
-/

set_option maxRecDepth 4000

namespace Gofilter

/-- The integer kinds of Go that the engine dispatches on
(`reflect.Int`, `Int8` … `Uint64`).  `iint`/`uuint` are the
platform-sized `int`/`uint`, 64-bit here as on the reference platform. -/
inductive IntKind where
  | i8 | i16 | i32 | i64 | iint
  | u8 | u16 | u32 | u64 | uuint
  deriving DecidableEq, Repr

/-- Bit width of an integer kind. -/
def IntKind.width : IntKind → Nat
  | .i8 => 8 | .i16 => 16 | .i32 => 32 | .i64 => 64 | .iint => 64
  | .u8 => 8 | .u16 => 16 | .u32 => 32 | .u64 => 64 | .uuint => 64

/-- Whether the integer kind is signed. -/
def IntKind.signed : IntKind → Bool
  | .i8 | .i16 | .i32 | .i64 | .iint => true
  | .u8 | .u16 | .u32 | .u64 | .uuint => false

/-- The mathematical value stored in a Go integer of kind `k` lies in
this range: `[0, 2^w)` for unsigned kinds, `[-2^(w-1), 2^(w-1))` for
signed kinds. -/
def IntKind.inRange (k : IntKind) (v : Int) : Prop :=
  if k.signed then -(2 ^ (k.width - 1) : Int) ≤ v ∧ v < (2 ^ (k.width - 1) : Int)
  else 0 ≤ v ∧ v < (2 ^ k.width : Int)

instance (k : IntKind) (v : Int) : Decidable (k.inRange v) := by
  unfold IntKind.inRange; infer_instance

/-- Go conversion of an integer value into kind `k`
(`reflect.Value.Convert`): truncate to the kind's width and reinterpret
according to its signedness (two's complement). -/
def IntKind.wrap (k : IntKind) (v : Int) : Int :=
  let m := v % (2 ^ k.width : Int)
  if k.signed ∧ m ≥ (2 ^ (k.width - 1) : Int) then m - (2 ^ k.width : Int) else m

/-- A Go dynamic value (`reflect.Value`) of the kinds the engine
handles: strings, integers of every width/signedness, booleans,
pointers (possibly nil), structs (named fields in declaration order) and
slices (`none` models a nil slice).  Floats, maps, channels and function
values are outside the modelled fragment; no claim below depends on them. -/
inductive GoVal where
  | vInt : IntKind → Int → GoVal
  | vStr : String → GoVal
  | vBool : Bool → GoVal
  | vPtr : Option GoVal → GoVal
  | vStruct : List (String × GoVal) → GoVal
  | vSlice : Option (List GoVal) → GoVal

/-- The Go type of a value, at the granularity the comparator needs.
Distinct integer kinds are distinct Go types; all struct types are
collapsed to one kind (the comparator treats any struct operand as
unsupported, so the collapse is observationally harmless, and likewise
for pointers and slices). -/
inductive GoKind where
  | kInt : IntKind → GoKind
  | kStr | kBool | kPtr | kStruct | kSlice
  deriving DecidableEq, Repr

/-- Kind (type proxy) of a value. -/
def GoVal.kind : GoVal → GoKind
  | .vInt k _ => .kInt k
  | .vStr _ => .kStr
  | .vBool _ => .kBool
  | .vPtr _ => .kPtr
  | .vStruct _ => .kStruct
  | .vSlice _ => .kSlice

/-- `strings.Split` at the character level for a one-character
separator (the package only ever splits on `"."` and `","`): the parts
between occurrences of the separator; the empty string yields one empty
part, as in Go. -/
def splitOnChar (sep : Char) : List Char → List (List Char)
  | [] => [[]]
  | c :: rest =>
    let ps := splitOnChar sep rest
    if c == sep then [] :: ps
    else
      match ps with
      | p :: ps' => (c :: p) :: ps'
      | [] => [[c]]

/-- `strings.Split(s, sep)` for the one-character separators used by
the package. -/
def goSplit (s : String) (sep : Char) : List String :=
  (splitOnChar sep s.data).map String.mk

/-- `unicode.IsSpace`: the White_Space property characters — the ASCII
spaces (tab, newline, vertical tab, form feed, carriage return, space),
NEL (U+0085), NBSP (U+00A0), and the category-Z space characters
(U+1680, U+2000–U+200A, U+2028, U+2029, U+202F, U+205F, U+3000). -/
def isGoSpace (c : Char) : Bool :=
  let n := c.toNat
  n == 0x9 || n == 0xa || n == 0xb || n == 0xc || n == 0xd || n == 0x20 ||
  n == 0x85 || n == 0xa0 || n == 0x1680 ||
  (0x2000 ≤ n && n ≤ 0x200a) ||
  n == 0x2028 || n == 0x2029 || n == 0x202f || n == 0x205f || n == 0x3000

/-- `strings.TrimSpace`: drop leading and trailing white space. -/
def goTrim (s : String) : String :=
  String.mk (((s.data.dropWhile isGoSpace).reverse.dropWhile isGoSpace).reverse)

/-- `strings.HasPrefix(s, pre)`. -/
def goStartsWith (s pre : String) : Bool :=
  pre.data.isPrefixOf s.data

/-- `s[n:]` / `strings.TrimPrefix` tail: drop the first `n` characters
(ASCII prefixes only are dropped in this package, so byte and character
counts agree). -/
def goDrop (s : String) (n : Nat) : String :=
  String.mk (s.data.drop n)

/-- `reflect.Value.FieldByName`: look up a named member of a struct
value (first match in declaration order; Go struct fields are unique). -/
def GoVal.fieldByName : GoVal → String → Option GoVal
  | .vStruct fields, name => (fields.find? (fun f => f.1 == name)).map (·.2)
  | _, _ => none

/-- Go `string(intValue)` conversion: the UTF-8 string of the code
point, or the replacement character for invalid code points. -/
def goIntToString (v : Int) : String :=
  if v < 0 then "�"
  else if h : v.toNat.isValidChar then String.mk [Char.ofNatAux v.toNat h]
  else "�"

/-- `reflect.Value.Convert` restricted to the conversions the comparator
can reach: integer kinds convert into any integer kind (truncating) and
into `string` (rune conversion); every other cross-kind pair of the
modelled fragment is not convertible, matching Go's conversion rules. -/
def goConvert (v : GoVal) (target : GoKind) : Option GoVal :=
  match v, target with
  | .vInt _ x, .kInt k => some (.vInt k (k.wrap x))
  | .vInt _ x, .kStr => some (.vStr (goIntToString x))
  | _, _ => none

/-- `getFieldValue` step: after reading a member, dereference it once if
it is a pointer, failing on nil (`operators.go` lines 36-41).  The field
name is carried for the error message. -/
def derefStep (v : GoVal) (field : String) : Except String GoVal :=
  match v with
  | .vPtr none => .error ("nil pointer for field " ++ field)
  | .vPtr (some inner) => .ok inner
  | _ => .ok v

/-- The loop of `getFieldValue` over the split path (`operators.go`
lines 27-47): look the member up, dereference a pointer (failing on
nil), and require a struct whenever steps remain. -/
def walkFields : GoVal → List String → Except String GoVal
  | value, [] => .ok value
  | value, field :: rest =>
    match value.fieldByName field with
    | none => .error ("field " ++ field ++ " not found")
    | some v =>
      match derefStep v field with
      | .error e => .error e
      | .ok v' =>
        if rest ≠ [] ∧ v'.kind ≠ .kStruct then
          .error (field ++ " is not a struct")
        else
          walkFields v' rest

/-- `getFieldValue(item, fieldPath)` from `operators.go`: dereference a
top-level pointer (failing on nil), require a struct, split the path on
`"."` and walk the members. -/
def getFieldValue (item : GoVal) (fieldPath : String) : Except String GoVal :=
  match item with
  | .vPtr none => .error "nil pointer"
  | .vPtr (some inner) =>
    if inner.kind ≠ .kStruct then .error "item is not a struct"
    else walkFields inner (goSplit fieldPath '.')
  | v =>
    if v.kind ≠ .kStruct then .error "item is not a struct"
    else walkFields v (goSplit fieldPath '.')

/-- `compareValues(a, b)` from `operators.go`: when the types differ,
convert `b` into `a`'s type (failing when not convertible), then compare
by kind; strings, integers and booleans compare for equality, every
other kind is unsupported. -/
def compareValues (a b : GoVal) : Except String Bool :=
  let conv : Except String GoVal :=
    if a.kind = b.kind then .ok b
    else
      match goConvert b a.kind with
      | some b' => .ok b'
      | none => .error "cannot compare values of different types"
  match conv with
  | .error e => .error e
  | .ok b' =>
    match a, b' with
    | .vStr s, .vStr t => .ok (s == t)
    | .vInt _ x, .vInt _ y => .ok (x == y)
    | .vBool x, .vBool y => .ok (x == y)
    | _, _ => .error "unsupported type for comparison"

/-- `compareValuesLess(a, b)` from `operators.go`: same conversion step,
then `<` by kind; strings compare lexicographically, integers by value;
booleans (and every non-ordered kind) are unsupported. -/
def compareValuesLess (a b : GoVal) : Except String Bool :=
  let conv : Except String GoVal :=
    if a.kind = b.kind then .ok b
    else
      match goConvert b a.kind with
      | some b' => .ok b'
      | none => .error "cannot compare values of different types"
  match conv with
  | .error e => .error e
  | .ok b' =>
    match a, b' with
    | .vStr s, .vStr t => .ok (decide (s < t))
    | .vInt _ x, .vInt _ y => .ok (decide (x < y))
    | _, _ => .error "unsupported type for less than comparison"

/-- The `Filter[T]` interface of `filter.go`: a predicate over records.
`FilterFunc` adapters are plain functions, so a filter is modelled as a
boolean-valued function. -/
def GoFilter (α : Type) : Type := α → Bool

/-- `filter.Apply(items, filter)` from `filter.go`: one linear pass
keeping the items that pass the filter, in order. -/
def applyFilter {α : Type} : List α → GoFilter α → List α
  | [], _ => []
  | x :: xs, f => if f x then x :: applyFilter xs f else applyFilter xs f

/-- `filter.And(filters...)`: the loop returns `false` at the first
failing filter, `true` when the list is exhausted. -/
def goAnd {α : Type} : List (GoFilter α) → GoFilter α
  | [], _ => true
  | f :: rest, item => if f item then goAnd rest item else false

/-- `filter.Or(filters...)`: the loop returns `true` at the first
passing filter, `false` when the list is exhausted. -/
def goOr {α : Type} : List (GoFilter α) → GoFilter α
  | [], _ => false
  | f :: rest, item => if f item then true else goOr rest item

/-- `filter.Not(filter)`: inverts the result. -/
def goNot {α : Type} (f : GoFilter α) : GoFilter α :=
  fun item => !(f item)

/-- `filter.Eq(fieldName, value)`: resolve the field (false on error),
then `compareValues` (false on error). -/
def goEq (fieldName : String) (value : GoVal) : GoFilter GoVal :=
  fun item =>
    match getFieldValue item fieldName with
    | .error _ => false
    | .ok fv =>
      match compareValues fv value with
      | .error _ => false
      | .ok equal => equal

/-- `filter.Ne(fieldName, value)`: like `Eq` but negating the
comparison result; errors still yield false. -/
def goNe (fieldName : String) (value : GoVal) : GoFilter GoVal :=
  fun item =>
    match getFieldValue item fieldName with
    | .error _ => false
    | .ok fv =>
      match compareValues fv value with
      | .error _ => false
      | .ok equal => !equal

/-- `filter.Gt(fieldName, value)`: `compareValuesLess(target, field)`. -/
def goGt (fieldName : String) (value : GoVal) : GoFilter GoVal :=
  fun item =>
    match getFieldValue item fieldName with
    | .error _ => false
    | .ok fv =>
      match compareValuesLess value fv with
      | .error _ => false
      | .ok less => less

/-- `filter.Lt(fieldName, value)`: `compareValuesLess(field, target)`. -/
def goLt (fieldName : String) (value : GoVal) : GoFilter GoVal :=
  fun item =>
    match getFieldValue item fieldName with
    | .error _ => false
    | .ok fv =>
      match compareValuesLess fv value with
      | .error _ => false
      | .ok less => less

/-- `filter.Gte(fieldName, value)`: `!less || equal`, false on any
resolution or comparison error. -/
def goGte (fieldName : String) (value : GoVal) : GoFilter GoVal :=
  fun item =>
    match getFieldValue item fieldName with
    | .error _ => false
    | .ok fv =>
      match compareValuesLess fv value with
      | .error _ => false
      | .ok less =>
        match compareValues fv value with
        | .error _ => false
        | .ok equal => !less || equal

/-- `filter.Lte(fieldName, value)`: `less || equal`, false on any
resolution or comparison error. -/
def goLte (fieldName : String) (value : GoVal) : GoFilter GoVal :=
  fun item =>
    match getFieldValue item fieldName with
    | .error _ => false
    | .ok fv =>
      match compareValuesLess fv value with
      | .error _ => false
      | .ok less =>
        match compareValues fv value with
        | .error _ => false
        | .ok equal => less || equal

/-- Contiguous-occurrence test on lists, used to model
`strings.Contains` at the character level (for valid UTF-8, byte-level
and character-level substring occurrence coincide).  The empty needle
occurs in every string, as in Go. -/
def listIsInfixOf [BEq α] : List α → List α → Bool
  | sub, [] => sub.isEmpty
  | sub, l@(_ :: tl) => sub.isPrefixOf l || listIsInfixOf sub tl

/-- Membership scan used by `Contains` on slice fields and by `In`:
true when some element compares equal without error. -/
def anyCompareEq (elems : List GoVal) (target : GoVal) : Bool :=
  elems.any (fun e =>
    match compareValues e target with
    | .ok true => true
    | _ => false)

/-- `filter.Contains(fieldName, value)`: substring test when the field
is a string and the operand is a string; membership by comparison when
the field is a slice; false otherwise.  Nil slices have no elements. -/
def goContains (fieldName : String) (value : GoVal) : GoFilter GoVal :=
  fun item =>
    match getFieldValue item fieldName with
    | .error _ => false
    | .ok fv =>
      match fv with
      | .vStr s =>
        match value with
        | .vStr sub => listIsInfixOf sub.data s.data
        | _ => false
      | .vSlice none => false
      | .vSlice (some elems) => anyCompareEq elems value
      | _ => false

/-- `filter.In(fieldName, values)`: true when the field compares equal
to some element of the supplied list. -/
def goIn (fieldName : String) (values : List GoVal) : GoFilter GoVal :=
  fun item =>
    match getFieldValue item fieldName with
    | .error _ => false
    | .ok fv => values.any (fun v =>
        match compareValues fv v with
        | .ok true => true
        | _ => false)

/-- `filter.Between(fieldName, min, max)` from the operator file:
`And(Gte(min), Lte(max))`. -/
def goBetween (fieldName : String) (lo hi : GoVal) : GoFilter GoVal :=
  goAnd [goGte fieldName lo, goLte fieldName hi]

/-- `filter.ArrayContainsAny(fieldName, values)`: slice fields only;
true when some slice element compares equal to some supplied value
(`compareValues(elemValue, targetValue)`, the element first, so the
operand converts into the element's type). -/
def goArrayContainsAny (fieldName : String) (values : List GoVal) : GoFilter GoVal :=
  fun item =>
    match getFieldValue item fieldName with
    | .error _ => false
    | .ok fv =>
      match fv with
      | .vSlice none => false
      | .vSlice (some elems) => elems.any (fun e => values.any (fun v =>
          match compareValues e v with
          | .ok true => true
          | _ => false))
      | _ => false

/-- `filter.ArrayContainsAll(fieldName, values)`: slice fields only;
every supplied value must compare equal to some slice element. -/
def goArrayContainsAll (fieldName : String) (values : List GoVal) : GoFilter GoVal :=
  fun item =>
    match getFieldValue item fieldName with
    | .error _ => false
    | .ok fv =>
      match fv with
      | .vSlice none => false
      | .vSlice (some elems) => values.all (fun v => anyCompareEq elems v)
      | _ => false

/-- Whether a resolved value's kind is nil-able in the sense of
`IsNil`'s switch (`Ptr, Slice, Map, Interface, Chan, Func`); in the
modelled fragment these are pointers and slices. -/
def govalIsNil : GoVal → Bool
  | .vPtr none => true
  | .vPtr (some _) => false
  | .vSlice none => true
  | .vSlice (some _) => false
  | _ => false

mutual

/-- `reflect.Value.IsZero` on the modelled kinds: zero number, empty
string, false, nil pointer, nil slice, all-zero struct. -/
def govalIsZero : GoVal → Bool
  | .vInt _ v => v == 0
  | .vStr s => s == ""
  | .vBool b => !b
  | .vPtr o => o.isNone
  | .vSlice o => o.isNone
  | .vStruct fields => fieldsAllZero fields

/-- `IsZero` over the members of a struct value. -/
def fieldsAllZero : List (String × GoVal) → Bool
  | [] => true
  | (_, v) :: rest => govalIsZero v && fieldsAllZero rest

end

/-- `filter.IsNil(fieldName)` from `filter.go`: false on resolution
error; nil test for pointer/slice kinds; false for all other kinds. -/
def goIsNil (fieldName : String) : GoFilter GoVal :=
  fun item =>
    match getFieldValue item fieldName with
    | .error _ => false
    | .ok fv => govalIsNil fv

/-- `filter.IsNotNil(fieldName)`: defined in the source as
`Not(IsNil(fieldName))`. -/
def goIsNotNil (fieldName : String) : GoFilter GoVal :=
  goNot (goIsNil fieldName)

/-- `filter.IsZero(fieldName)`: false on resolution error, else
`fieldValue.IsZero()`. -/
def goIsZero (fieldName : String) : GoFilter GoVal :=
  fun item =>
    match getFieldValue item fieldName with
    | .error _ => false
    | .ok fv => govalIsZero fv

/-- `filter.IsNotZero(fieldName)`: defined in the source as
`Not(IsZero(fieldName))`. -/
def goIsNotZero (fieldName : String) : GoFilter GoVal :=
  goNot (goIsZero fieldName)

/-- The less-function `Sort` passes to `sort.Slice` (`Sort` in the
filter package): resolve both fields (not-less on either error), compare
(not-less on error), then direction: `less` when ascending, `!less`
when descending. -/
def sortLess (fieldName : String) (ascending : Bool) (x y : GoVal) : Bool :=
  match getFieldValue x fieldName with
  | .error _ => false
  | .ok fx =>
    match getFieldValue y fieldName with
    | .error _ => false
    | .ok fy =>
      match compareValuesLess fx fy with
      | .error _ => false
      | .ok less => if ascending then less else !less

/-- One bubble-down pass of the standard library's insertion sort,
expressed on the reversed sorted prefix: the element `x` being inserted
moves left past each neighbour `p` while `less x p`, exactly the inner
`for j := i; j > a && data.Less(j, j-1); j--` loop of `insertionSort`
in Go's `sort` package. -/
def insertBubble {α : Type} (less : α → α → Bool) (x : α) : List α → List α
  | [] => [x]
  | p :: ps => if less x p then p :: insertBubble less x ps else x :: p :: ps

/-- Insertion sort with the accumulator holding the already-sorted
prefix in reverse. -/
def insertionSortAux {α : Type} (less : α → α → Bool) : List α → List α → List α
  | acc, [] => acc.reverse
  | acc, y :: ys => insertionSortAux less (insertBubble less y acc) ys

/-- `sort.Slice(data, less)` as executed by the Go standard library on
slices of length at most 12: `pdqsort` immediately takes its
insertion-sort branch (`length <= 12`), so the observable behaviour is
plain insertion sort with the supplied less-function.  Theorems about
`goSort` on longer slices would not be faithful and none is stated. -/
def sortSlice {α : Type} (less : α → α → Bool) (items : List α) : List α :=
  insertionSortAux less [] items

/-- `filter.Sort(items, fieldName, ascending)`: copy the slice and
`sort.Slice` it with `sortLess`. -/
def goSort (items : List GoVal) (fieldName : String) (ascending : Bool) : List GoVal :=
  sortSlice (sortLess fieldName ascending) items

/-- The declared Go type of a registered field, at the granularity
`coerceValue` dispatches on (string, each integer kind, bool; the
time/float branches are outside the modelled fragment). -/
inductive CoerceKind where
  | cString
  | cInt : IntKind → CoerceKind
  | cBool
  deriving DecidableEq, Repr

/-- All-decimal-digit parse (the base-10 digit loop shared by
`strconv.ParseInt`/`ParseUint`); fails on empty or non-digit input. -/
def parseDigits : List Char → Option Nat
  | [] => none
  | ds =>
    if ds.all (fun c => c.isDigit) then
      some (ds.foldl (fun acc c => acc * 10 + (c.toNat - '0'.toNat)) 0)
    else none

/-- `strconv.ParseInt(raw, 10, bits)` as used by `coerceValue`: an
optional sign followed by decimal digits, failing when the value leaves
the signed range of the width (Go reports `ErrRange`, which `coerceValue`
surfaces as an error). -/
def parseIntGo (raw : String) (bits : Nat) : Option Int :=
  match raw.data with
  | '+' :: ds => (parseDigits ds).bind fun n =>
      if (n : Int) < 2 ^ (bits - 1) then some (n : Int) else none
  | '-' :: ds => (parseDigits ds).bind fun n =>
      if (n : Int) ≤ 2 ^ (bits - 1) then some (-(n : Int)) else none
  | ds => (parseDigits ds).bind fun n =>
      if (n : Int) < 2 ^ (bits - 1) then some (n : Int) else none

/-- `strconv.ParseUint(raw, 10, bits)`: decimal digits with no sign
permitted, failing when the value leaves the unsigned range. -/
def parseUintGo (raw : String) (bits : Nat) : Option Nat :=
  (parseDigits raw.data).bind fun n =>
    if n < 2 ^ bits then some n else none

/-- `strconv.ParseBool`: the canonical true/false text forms. -/
def parseBoolGo (raw : String) : Option Bool :=
  if raw ∈ ["1", "t", "T", "TRUE", "true", "True"] then some true
  else if raw ∈ ["0", "f", "F", "FALSE", "false", "False"] then some false
  else none

/-- `query.coerceValue(raw, targetType)`: strings pass through
verbatim, integer kinds parse with the declared width and signedness,
booleans via `ParseBool`. -/
def coerceValue (raw : String) (t : CoerceKind) : Except String GoVal :=
  match t with
  | .cString => .ok (.vStr raw)
  | .cInt k =>
    if k.signed then
      match parseIntGo raw k.width with
      | some v => .ok (.vInt k v)
      | none => .error ("cannot parse " ++ raw ++ " as int")
    else
      match parseUintGo raw k.width with
      | some n => .ok (.vInt k (n : Int))
      | none => .error ("cannot parse " ++ raw ++ " as uint")
  | .cBool =>
    match parseBoolGo raw with
    | some b => .ok (.vBool b)
    | none => .error ("cannot parse " ++ raw ++ " as bool")

/-- Split a character list at the first occurrence of `sep`:
`none` when `sep` does not occur. -/
def breakAtChar (sep : Char) : List Char → Option (List Char × List Char)
  | [] => none
  | c :: rest =>
    if c == sep then some ([], rest)
    else (breakAtChar sep rest).map (fun p => (c :: p.1, p.2))

/-- `strings.SplitN(s, ",", 2)`: at most two parts, splitting at the
first comma only; a string with no comma yields a single part. -/
def splitN2 (s : String) : List String :=
  match breakAtChar ',' s.data with
  | none => [s]
  | some (a, b) => [String.mk a, String.mk b]

/-- A coerced filter operand: a single value (`interface{}`), the list
built for `in` (`[]interface{}`), or the pair built for `between`
(`[2]interface{}`). -/
inductive CoercedVal where
  | single : GoVal → CoercedVal
  | list : List GoVal → CoercedVal
  | pair : GoVal → GoVal → CoercedVal

/-- `query.coerceFilterValue(raw, op, info)`: `in` splits on every
comma and coerces each part after `TrimSpace`; `between` splits with
`SplitN(..., 2)`, errors unless that yields exactly two parts, and
coerces each endpoint after `TrimSpace`; every other operator coerces
the raw string verbatim. -/
def coerceFilterValue (raw op : String) (t : CoerceKind) : Except String CoercedVal :=
  if op = "in" then
    match (goSplit raw ',').mapM (fun p => coerceValue (goTrim p) t) with
    | .ok vals => .ok (.list vals)
    | .error e => .error e
  else if op = "between" then
    match splitN2 raw with
    | [a, b] =>
      match coerceValue (goTrim a) t with
      | .error e => .error e
      | .ok lo =>
        match coerceValue (goTrim b) t with
        | .error e => .error e
        | .ok hi => .ok (.pair lo hi)
    | _ => .error "between requires exactly 2 comma-separated values"
  else
    match coerceValue raw t with
    | .error e => .error e
    | .ok v => .ok (.single v)

/-- A declared struct member as `parseStructTags` sees it: its Go name,
its `gofilter` tag string (empty when absent), and its declared type. -/
structure StructField where
  name : String
  tag : String
  ftype : CoerceKind

/-- A `query.fieldInfo` registry entry. -/
structure FieldInfo where
  structField : String
  column : String
  filterable : Bool
  sortable : Bool
  ftype : CoerceKind

/-- `query.toSnakeCase`: walk the runes; before an upper-case rune
insert `_` when the previous rune is lower-case, or when the previous
rune is upper-case and the next is lower-case (acronym boundary); then
lower-case it.  Character classes are ASCII here, as in every
identifier the package is used with. -/
def snakeAux : Option Char → List Char → List Char
  | _, [] => []
  | prev, c :: rest =>
    if c.isUpper then
      let sep : List Char :=
        match prev with
        | none => []
        | some p =>
          if p.isLower then ['_']
          else if p.isUpper && (match rest with
            | c' :: _ => c'.isLower
            | [] => false) then ['_']
          else []
      sep ++ (c.toLower :: snakeAux (some c) rest)
    else
      c :: snakeAux (some c) rest

/-- `query.toSnakeCase` on a whole string. -/
def toSnakeCase (s : String) : String :=
  String.mk (snakeAux none s.data)

/-- The tag-scanning loop of `parseStructTags` for one member: split
the tag on commas, trim each part, and record `filterable`, `sortable`
and an explicit `column=` override (default: snake case of the name). -/
def parseTagInfo (sf : StructField) : FieldInfo :=
  let parts := (goSplit sf.tag ',').map goTrim
  parts.foldl
    (fun info part =>
      if part = "filterable" then { info with filterable := true }
      else if part = "sortable" then { info with sortable := true }
      else if goStartsWith part "column=" then { info with column := goDrop part 7 }
      else info)
    { structField := sf.name
      column := toSnakeCase sf.name
      filterable := false
      sortable := false
      ftype := sf.ftype }

/-- `query.parseStructTags`: members with an empty tag are skipped;
each remaining member's tag is parsed; members that did not end up
`filterable` are skipped entirely (they reach neither `fields` nor
`byColumn`).  The registry is the surviving entries in declaration
order. -/
def parseStructTags (decls : List StructField) : List FieldInfo :=
  (decls.filter (fun sf => sf.tag ≠ "")).map parseTagInfo
    |>.filter (fun info => info.filterable)

/-- Lookup in `registry.byColumn`: the Go map is written in declaration
order, so on duplicate columns the last write wins. -/
def lookupColumn (reg : List FieldInfo) (col : String) : Option FieldInfo :=
  reg.reverse.find? (fun info => info.column == col)

/-- The typed error surface of `parseSortParam`. -/
inductive SortErr where
  | fieldNotSortable : String → SortErr
  deriving DecidableEq, Repr

/-- `query.parseSortParam(raw, registry)`: strip a leading `-`
(descending), look the key up in `byColumn` (error when absent), then
require `sortable` (same error kind), returning the struct-field name
and the direction. -/
def parseSortParam (raw : String) (reg : List FieldInfo) :
    Except SortErr (String × Bool) :=
  let asc := !(goStartsWith raw "-")
  let field := if goStartsWith raw "-" then goDrop raw 1 else raw
  match lookupColumn reg field with
  | none => .error (.fieldNotSortable field)
  | some info =>
    if !info.sortable then .error (.fieldNotSortable field)
    else .ok (info.structField, asc)

/-! ## Helper lemmas -/

/-- The filtering loop of `Apply` is `List.filter`. -/
theorem applyFilter_eq_filter {α : Type} (l : List α) (f : GoFilter α) :
    applyFilter l f = l.filter f := by
  induction l with
  | nil => rfl
  | cons x xs ih =>
    simp [applyFilter, List.filter_cons, ih]

/-! ## C9: empty And / empty Or -/

/-- Claim C9: `And` of no filters matches every record, so applying it
returns the collection unchanged; `Or` of no filters matches no record,
so applying it returns the empty collection. -/
theorem c9_empty_and_or {α : Type} (C : List α) :
    applyFilter C (goAnd []) = C ∧ applyFilter C (goOr []) = [] := by
  constructor <;> (induction C with
  | nil => rfl
  | cons x xs ih => simpa [applyFilter, goAnd, goOr] using ih)

/-! ## C8: Not is the order-preserving complement -/

/-- Claim C8: `Apply(C, Not(P))` holds exactly the elements of `C`
absent from `Apply(C, P)`, it preserves `C`'s relative order (it is a
sublist of `C`), and together the two results partition `C` (their
concatenation is a permutation of `C`). -/
theorem c8_not_complement {α : Type} (C : List α) (P : GoFilter α) :
    (∀ x, x ∈ applyFilter C (goNot P) ↔ x ∈ C ∧ x ∉ applyFilter C P) ∧
    (applyFilter C (goNot P)).Sublist C ∧
    List.Perm (applyFilter C P ++ applyFilter C (goNot P)) C := by
  rw [applyFilter_eq_filter, applyFilter_eq_filter]
  refine ⟨fun x => ?_, List.filter_sublist C, List.filter_append_perm P C⟩
  simp only [List.mem_filter, goNot, Bool.not_eq_true']
  constructor
  · rintro ⟨hx, hpx⟩
    exact ⟨hx, fun hmem => by simp [hpx] at hmem⟩
  · rintro ⟨hx, hnot⟩
    refine ⟨hx, ?_⟩
    cases hpx : P x with
    | false => rfl
    | true => exact absurd ⟨hx, hpx⟩ hnot

/-! ## C7: pagination arithmetic -/

/-- Counterexample to claim C1: on a record whose field path fails to
resolve (member `Missing` does not exist), the leaf predicate
`IsNotNil` evaluates to `true`, not `false` — it matches the record. -/
theorem c1_counterexample :
    (∃ e, getFieldValue (GoVal.vStruct [("Age", .vInt .iint 30)]) "Missing" = .error e) ∧
    goIsNotNil "Missing" (GoVal.vStruct [("Age", .vInt .iint 30)]) = true :=
  ⟨⟨"field Missing not found", rfl⟩, rfl⟩

/-- Claim C1 as amended: when the field path fails to resolve, every
leaf operator that resolves the field directly (equality, inequality,
the four orderings, `Contains`, `In`, `Between`, the array-containment
operators, `IsNil` and `IsZero`) evaluates to `false`; but `IsNotNil`
and `IsNotZero`, being defined as negations of `IsNil`/`IsZero`,
evaluate to `true` and therefore match every such record. -/
theorem c1_amended (item : GoVal) (path : String)
    (h : ∃ e, getFieldValue item path = .error e)
    (v lo hi : GoVal) (vs : List GoVal) :
    goEq path v item = false ∧ goNe path v item = false ∧
    goGt path v item = false ∧ goLt path v item = false ∧
    goGte path v item = false ∧ goLte path v item = false ∧
    goContains path v item = false ∧ goIn path vs item = false ∧
    goBetween path lo hi item = false ∧
    goArrayContainsAny path vs item = false ∧
    goArrayContainsAll path vs item = false ∧
    goIsNil path item = false ∧ goIsZero path item = false ∧
    goIsNotNil path item = true ∧ goIsNotZero path item = true := by
  obtain ⟨e, he⟩ := h
  simp [goEq, goNe, goGt, goLt, goGte, goLte, goContains, goIn, goBetween,
    goAnd, goArrayContainsAny, goArrayContainsAll, goIsNil, goIsZero,
    goIsNotNil, goIsNotZero, goNot, he]

/-- Witness for `c1_amended` at a concrete record and path. -/
theorem c1_amended_witness :
    goEq "Missing" (.vBool true) (GoVal.vStruct []) = false ∧
    goNe "Missing" (.vBool true) (GoVal.vStruct []) = false ∧
    goGt "Missing" (.vBool true) (GoVal.vStruct []) = false ∧
    goLt "Missing" (.vBool true) (GoVal.vStruct []) = false ∧
    goGte "Missing" (.vBool true) (GoVal.vStruct []) = false ∧
    goLte "Missing" (.vBool true) (GoVal.vStruct []) = false ∧
    goContains "Missing" (.vBool true) (GoVal.vStruct []) = false ∧
    goIn "Missing" [] (GoVal.vStruct []) = false ∧
    goBetween "Missing" (.vBool true) (.vBool true) (GoVal.vStruct []) = false ∧
    goArrayContainsAny "Missing" [] (GoVal.vStruct []) = false ∧
    goArrayContainsAll "Missing" [] (GoVal.vStruct []) = false ∧
    goIsNil "Missing" (GoVal.vStruct []) = false ∧
    goIsZero "Missing" (GoVal.vStruct []) = false ∧
    goIsNotNil "Missing" (GoVal.vStruct []) = true ∧
    goIsNotZero "Missing" (GoVal.vStruct []) = true :=
  c1_amended (GoVal.vStruct []) "Missing" ⟨"field Missing not found", rfl⟩
    (.vBool true) (.vBool true) (.vBool true) []

/-! ## C3: the final path step dereferences pointers -/

/-- Claim C3, evaluation at the failing input: resolving a field that
is a nil pointer in final position fails (it does not yield the nil
optional value), and consequently `IsNil` on that field returns
`false` — contradicting both the claim and the package's own
documentation of `IsNil` ("works with pointers"). -/
theorem c3_nil_ptr_eval :
    getFieldValue (GoVal.vStruct [("P", .vPtr none)]) "P"
      = .error "nil pointer for field P" ∧
    goIsNil "P" (GoVal.vStruct [("P", .vPtr none)]) = false :=
  ⟨rfl, rfl⟩

/-- What resolution actually does at a pointer in final position:
it dereferences pointers at every step, including the final one.  A nil
pointer in final position makes resolution fail (so `IsNil` returns
`false` for that record), and a non-nil pointer in final position
resolves to the pointed-to value, already dereferenced. -/
theorem getFieldValue_final_ptr (fields : List (String × GoVal)) (name : String)
    (hname : goSplit name '.' = [name]) :
    ((GoVal.vStruct fields).fieldByName name = some (.vPtr none) →
      getFieldValue (.vStruct fields) name = .error ("nil pointer for field " ++ name) ∧
      goIsNil name (.vStruct fields) = false) ∧
    (∀ v : GoVal, (GoVal.vStruct fields).fieldByName name = some (.vPtr (some v)) →
      getFieldValue (.vStruct fields) name = .ok v) := by
  constructor
  · intro hnil
    have hres : getFieldValue (.vStruct fields) name
        = .error ("nil pointer for field " ++ name) := by
      simp [getFieldValue, GoVal.kind, hname, walkFields, hnil, derefStep]
    exact ⟨hres, by simp [goIsNil, hres]⟩
  · intro v hsome
    simp [getFieldValue, GoVal.kind, hname, walkFields, hsome, derefStep]

/-- Witness for `getFieldValue_final_ptr` at a concrete struct with a
nil pointer field. -/
theorem getFieldValue_final_ptr_witness :
    ((GoVal.vStruct [("Q", .vPtr none)]).fieldByName "Q" = some (.vPtr none) →
      getFieldValue (.vStruct [("Q", .vPtr none)]) "Q"
        = .error ("nil pointer for field " ++ "Q") ∧
      goIsNil "Q" (.vStruct [("Q", .vPtr none)]) = false) ∧
    (∀ v : GoVal,
      (GoVal.vStruct [("Q", .vPtr none)]).fieldByName "Q" = some (.vPtr (some v)) →
      getFieldValue (.vStruct [("Q", .vPtr none)]) "Q" = .ok v) :=
  getFieldValue_final_ptr [("Q", .vPtr none)] "Q" rfl

/-! ## C4: integer comparison converts by truncation -/

/-- Counterexample to claim C4: a `uint8` field holding 44 compares
equal to the operand `int` 300, because the conversion into the field's
kind truncates 300 modulo 256; the mathematical values differ. -/
theorem c4_counterexample :
    compareValues (.vInt .u8 44) (.vInt .iint 300) = .ok true ∧
    compareValuesLess (.vInt .u8 44) (.vInt .iint 300) = .ok false ∧
    (44 : Int) ≠ 300 :=
  ⟨rfl, rfl, by decide⟩

/-- Go conversion is the identity on values already representable in
the target kind. -/
theorem wrap_of_inRange (k : IntKind) (v : Int) (h : k.inRange v) : k.wrap v = v := by
  cases k <;>
    simp [IntKind.inRange, IntKind.width, IntKind.signed, IntKind.wrap] at h ⊢ <;>
    omega

/-- Claim C4 as amended: comparison between integer values of different
kinds converts the operand into the field's exact kind by Go
conversion, i.e. truncation modulo `2^width` with sign reinterpretation.
Equality holds iff the field's value equals the converted operand, and
ordering compares the converted operand, so values congruent modulo the
field's width compare equal (no error is raised); only when the
operand's mathematical value is representable in the field's kind is
the comparison value-based. -/
theorem c4_amended (k k' : IntKind) (a b : Int)
    (ha : k.inRange a) (hb : k'.inRange b) :
    compareValues (.vInt k a) (.vInt k' b) = .ok (a == k.wrap b) ∧
    compareValuesLess (.vInt k a) (.vInt k' b) = .ok (decide (a < k.wrap b)) ∧
    (k.inRange b → k.wrap b = b) := by
  refine ⟨?_, ?_, fun hbk => wrap_of_inRange k b hbk⟩ <;>
  · by_cases hkk : k = k'
    · subst hkk
      simp [compareValues, compareValuesLess, GoVal.kind, wrap_of_inRange k b hb]
    · have : GoVal.kind (.vInt k a) ≠ GoVal.kind (.vInt k' b) := by
        simp [GoVal.kind, hkk]
      simp [compareValues, compareValuesLess, GoVal.kind, goConvert, hkk]

/-- Witness for `c4_amended`: a `u16` field holding 5 against an `int`
operand 70000 (which truncates to 4464). -/
theorem c4_amended_witness :
    compareValues (.vInt .u16 5) (.vInt .iint 70000) = .ok ((5 : Int) == IntKind.wrap .u16 70000) ∧
    compareValuesLess (.vInt .u16 5) (.vInt .iint 70000)
      = .ok (decide ((5 : Int) < IntKind.wrap .u16 70000)) ∧
    (IntKind.inRange .u16 70000 → IntKind.wrap .u16 70000 = 70000) :=
  c4_amended .u16 .iint 5 70000 (by decide) (by decide)

/-! ## C10 / C5: splitting and trimming in `coerceFilterValue` -/

/-- A list without the separator splits into a single part. -/
theorem splitOnChar_of_not_mem (sep : Char) (l : List Char) (h : sep ∉ l) :
    splitOnChar sep l = [l] := by
  induction l with
  | nil => rfl
  | cons c rest ih =>
    have h1 : sep ≠ c ∧ sep ∉ rest := by simpa using h
    have hc : (c == sep) = false := beq_eq_false_iff_ne.mpr (Ne.symm h1.1)
    simp [splitOnChar, hc, ih h1.2]

/-- Splitting at the first separator after a separator-free head. -/
theorem breakAtChar_append (sep : Char) (a b : List Char) (h : sep ∉ a) :
    breakAtChar sep (a ++ sep :: b) = some (a, b) := by
  induction a with
  | nil => simp [breakAtChar]
  | cons c rest ih =>
    have h1 : sep ≠ c ∧ sep ∉ rest := by simpa using h
    have hc : (c == sep) = false := beq_eq_false_iff_ne.mpr (Ne.symm h1.1)
    simp [breakAtChar, hc, ih h1.2]

/-- Claim C10: during compilation, each comma-separated part of an
`_in` value and each endpoint of a `_between` value is trimmed of
surrounding white space before coercion, whereas every other operator
coerces the raw value verbatim: for a string-typed field the compiled
operand of any non-`in`/`between` operator is the raw string unchanged
(spaces included), while `in` and `between` operands are trimmed; for
an int-typed field a spacey raw value fails under `eq`-style operators
but succeeds under `in`. -/
theorem c10_trimming (s u : String) (op : String)
    (hop1 : op ≠ "in") (hop2 : op ≠ "between")
    (hs : ',' ∉ s.data) (hu : ',' ∉ u.data) :
    coerceFilterValue s op .cString = .ok (.single (.vStr s)) ∧
    coerceFilterValue s "in" .cString = .ok (.list [.vStr (goTrim s)]) ∧
    coerceFilterValue (s ++ "," ++ u) "between" .cString
      = .ok (.pair (.vStr (goTrim s)) (.vStr (goTrim u))) ∧
    (∃ e, coerceFilterValue " 7" op (.cInt .iint) = .error e) ∧
    coerceFilterValue " 7" "in" (.cInt .iint) = .ok (.list [.vInt .iint 7]) := by
  obtain ⟨sd⟩ := s
  obtain ⟨ud⟩ := u
  refine ⟨?_, ?_, ?_, ?_, ?_⟩
  · simp [coerceFilterValue, hop1, hop2, coerceValue]
  · simp [coerceFilterValue, goSplit, splitOnChar_of_not_mem ',' sd hs, coerceValue,
      List.mapM, List.mapM.loop]
  · have hdata : (String.mk sd ++ "," ++ String.mk ud).data = sd ++ ',' :: ud := by
      simp [String.data_append]
    simp [coerceFilterValue, splitN2, hdata, breakAtChar_append ',' sd ud hs, coerceValue]
  · refine ⟨"cannot parse  7 as int", ?_⟩
    simp [coerceFilterValue, hop1, hop2, coerceValue, IntKind.signed, IntKind.width,
      parseIntGo, parseDigits]
  · rfl

/-- Witness for `c10_trimming` at concrete spacey inputs and `op = "eq"`. -/
theorem c10_trimming_witness :
    coerceFilterValue " a " "eq" .cString = .ok (.single (.vStr " a ")) ∧
    coerceFilterValue " a " "in" .cString = .ok (.list [.vStr (goTrim " a ")]) ∧
    coerceFilterValue (" a " ++ "," ++ " b ") "between" .cString
      = .ok (.pair (.vStr (goTrim " a ")) (.vStr (goTrim " b "))) ∧
    (∃ e, coerceFilterValue " 7" "eq" (.cInt .iint) = .error e) ∧
    coerceFilterValue " 7" "in" (.cInt .iint) = .ok (.list [.vInt .iint 7]) :=
  c10_trimming " a " " b " "eq" (by decide) (by decide) (by decide) (by decide)

/-- Counterexample to claim C5: a `between` raw value of three
comma-separated parts does not fail for a string-typed field — it
compiles successfully, with the second endpoint keeping the extra
comma; for an int-typed field it fails only because the second
endpoint fails coercion, not because of the part count. -/
theorem c5_counterexample :
    (goSplit "a,b,c" ',').length = 3 ∧
    coerceFilterValue "a,b,c" "between" .cString
      = .ok (.pair (.vStr "a") (.vStr "b,c")) ∧
    (∃ e, coerceFilterValue "1,2,3" "between" (.cInt .iint) = .error e) :=
  ⟨rfl, rfl, ⟨_, rfl⟩⟩

/-- Claim C5 as amended: `between` splits the raw value at the first
comma into at most two parts (`strings.SplitN(raw, ",", 2)`).
Compilation fails with the invalid-value error exactly when no comma is
present or when an endpoint fails to coerce to the field's kind; when a
comma is present the endpoints are the part before the first comma and
the entire remainder (commas included), so for string-typed fields any
value with at least one comma — including three or more parts —
compiles successfully. -/
theorem c5_amended (raw : String) (t : CoerceKind) :
    (breakAtChar ',' raw.data = none →
      coerceFilterValue raw "between" t
        = .error "between requires exactly 2 comma-separated values") ∧
    (∀ a b : List Char, breakAtChar ',' raw.data = some (a, b) →
      coerceFilterValue raw "between" .cString
        = .ok (.pair (.vStr (goTrim (String.mk a))) (.vStr (goTrim (String.mk b))))) := by
  constructor
  · intro hnone
    simp [coerceFilterValue, splitN2, hnone]
  · intro a b hsome
    simp [coerceFilterValue, splitN2, hsome, coerceValue]

/-- Witness for `c5_amended`: a two-part value compiles, a comma-free
value fails, at concrete inputs. -/
theorem c5_amended_witness :
    coerceFilterValue "lo,hi" "between" .cString
      = .ok (.pair (.vStr (goTrim (String.mk ['l', 'o'])))
          (.vStr (goTrim (String.mk ['h', 'i'])))) ∧
    coerceFilterValue "nocomma" "between" .cBool
      = .error "between requires exactly 2 comma-separated values" :=
  ⟨(c5_amended "lo,hi" .cString).2 ['l', 'o'] ['h', 'i'] rfl,
   (c5_amended "nocomma" .cBool).1 rfl⟩

/-! ## C6: the registry only exposes filterable members -/

/-- Counterexample to claim C6: a member annotated `sortable` (but not
`filterable`) is skipped by the registry builder entirely, so the sort
directive for its key fails with the field-not-sortable error, even
though the member is marked sortable. -/
theorem c6_counterexample :
    parseStructTags [⟨"Name", "sortable", .cString⟩] = [] ∧
    parseSortParam "name" (parseStructTags [⟨"Name", "sortable", .cString⟩])
      = .error (.fieldNotSortable "name") :=
  ⟨rfl, rfl⟩

/-- Claim C6 as amended: compiling `sort=<key>` succeeds — yielding the
member and the ascending direction, descending with a `-` prefix —
exactly when the member carries both the `filterable` and the `sortable`
annotations: members without `filterable` never enter the registry
(whatever their other annotations), so their keys fail with the
field-not-sortable error, as do filterable members not marked sortable
and unannotated members. -/
theorem c6_amended (tag : String) (ty : CoerceKind) (f s : Bool)
    (hinfo : parseTagInfo ⟨"Email", tag, ty⟩ =
      { structField := "Email", column := "email", filterable := f,
        sortable := s, ftype := ty }) :
    (f = true → s = true →
      parseSortParam "email" (parseStructTags [⟨"Email", tag, ty⟩]) = .ok ("Email", true) ∧
      parseSortParam "-email" (parseStructTags [⟨"Email", tag, ty⟩]) = .ok ("Email", false)) ∧
    ((f = false ∨ s = false) →
      parseSortParam "email" (parseStructTags [⟨"Email", tag, ty⟩])
        = .error (.fieldNotSortable "email")) := by
  by_cases htag : tag = ""
  · subst htag
    have hinfo0 : parseTagInfo ⟨"Email", "", ty⟩ =
        { structField := "Email", column := "email", filterable := false,
          sortable := false, ftype := ty } := rfl
    rw [hinfo0] at hinfo
    have hf : f = false := by
      have h2 := congrArg FieldInfo.filterable hinfo
      simpa using h2.symm
    constructor
    · intro h1
      rw [h1] at hf
      exact absurd hf (by simp)
    · intro _
      rfl
  · have hbase : parseStructTags [⟨"Email", tag, ty⟩]
        = List.filter (fun info => info.filterable)
            [{ structField := "Email", column := "email", filterable := f,
               sortable := s, ftype := ty }] := by
      unfold parseStructTags
      rw [List.filter_cons, if_pos (by simpa using htag), List.filter_nil,
        List.map_cons, List.map_nil, hinfo]
    constructor
    · rintro rfl rfl
      refine ⟨?_, ?_⟩ <;> rw [hbase] <;> rfl
    · intro hfs
      rcases hfs with hf | hs
      · subst hf
        rw [hbase]
        rfl
      · subst hs
        cases f with
        | true => rw [hbase]; rfl
        | false => rw [hbase]; rfl

/-- Witness for `c6_amended` with the tag `filterable,sortable`. -/
theorem c6_amended_witness :
    parseSortParam "email"
        (parseStructTags [⟨"Email", "filterable,sortable", .cString⟩]) = .ok ("Email", true) ∧
    parseSortParam "-email"
        (parseStructTags [⟨"Email", "filterable,sortable", .cString⟩]) = .ok ("Email", false) :=
  (c6_amended "filterable,sortable" .cString true true rfl).1 rfl rfl

/-! ## C2: stability of Sort -/

/-- Inserting an element splits the accumulator: the result is the
accumulator with the new element placed at one position. -/
theorem insertBubble_split {α : Type} (less : α → α → Bool) (x : α) (acc : List α) :
    ∃ u v, acc = u ++ v ∧ insertBubble less x acc = u ++ x :: v := by
  induction acc with
  | nil => exact ⟨[], [], rfl, rfl⟩
  | cons p ps ih =>
    by_cases hp : less x p
    · obtain ⟨u, v, hsplit, hres⟩ := ih
      refine ⟨p :: u, v, by rw [hsplit]; rfl, ?_⟩
      simp [insertBubble, hp, hres]
    · exact ⟨[], p :: ps, rfl, by simp [insertBubble, hp]⟩

/-- The accumulator is a sublist of the accumulator after an
insertion. -/
theorem sublist_insertBubble {α : Type} (less : α → α → Bool) (x : α) (acc : List α) :
    acc.Sublist (insertBubble less x acc) := by
  obtain ⟨u, v, hsplit, hres⟩ := insertBubble_split less x acc
  rw [hres, hsplit]
  exact (List.sublist_cons_self x v).append_left u

/-- When the moving element is not less than `x`, the bubble pass
places it after every occurrence of `x` it could reach: some occurrence
of `x` remains to its right. -/
theorem insertBubble_before {α : Type} (less : α → α → Bool) (x y : α) (acc : List α)
    (hx : x ∈ acc) (hyx : less y x = false) :
    ∃ u v, insertBubble less y acc = u ++ y :: v ∧ x ∈ v := by
  induction acc with
  | nil => cases hx
  | cons p ps ih =>
    by_cases hp : less y p
    · have hxps : x ∈ ps := by
        rcases List.mem_cons.mp hx with hxp | hxps
        · exact absurd hp (by rw [← hxp]; simp [hyx])
        · exact hxps
      obtain ⟨u, v, hres, hxv⟩ := ih hxps
      exact ⟨p :: u, v, by simp [insertBubble, hp, hres], hxv⟩
    · exact ⟨[], p :: ps, by simp [insertBubble, hp], hx⟩

/-- The auxiliary insertion sort is a fold of bubble passes followed by
a reversal. -/
theorem insertionSortAux_eq_foldl {α : Type} (less : α → α → Bool)
    (l acc : List α) :
    insertionSortAux less acc l
      = (l.foldl (fun a z => insertBubble less z a) acc).reverse := by
  induction l generalizing acc with
  | nil => rfl
  | cons y ys ih => simp [insertionSortAux, ih, List.foldl_cons]

/-- Membership in the accumulator is preserved by a fold of bubble
passes. -/
theorem mem_foldl_insertBubble {α : Type} (less : α → α → Bool) (x : α)
    (l acc : List α) (hx : x ∈ acc) :
    x ∈ l.foldl (fun a z => insertBubble less z a) acc := by
  induction l generalizing acc with
  | nil => exact hx
  | cons y ys ih =>
    exact ih _ ((sublist_insertBubble less y acc).subset hx)

/-- Sublists of the accumulator survive a fold of bubble passes. -/
theorem sublist_foldl_insertBubble {α : Type} (less : α → α → Bool)
    (s : List α) (l acc : List α) (hs : s.Sublist acc) :
    s.Sublist (l.foldl (fun a z => insertBubble less z a) acc) := by
  induction l generalizing acc with
  | nil => exact hs
  | cons y ys ih =>
    exact ih _ (hs.trans (sublist_insertBubble less y acc))

/-- Claim C2 as amended (ascending direction, scoped): for collections
of at most 12 records — where `sort.Slice` runs its plain
insertion-sort branch — when a record `x` precedes a record `y` in the
input and the sort comparator does not rank `y` strictly below `x` (in
particular whenever their field values tie, fail to resolve, or are
incomparable), ascending `Sort` keeps `x` before `y`: `[x, y]` is a
sublist of the output.  Beyond that cutoff `sort.Slice` (pdqsort)
guarantees no stability in either direction, and the descending
direction violates stability even below it: see the counterexample. -/
theorem c2_amended (fieldName : String) (l₁ l₂ l₃ : List GoVal) (x y : GoVal)
    (hlen : (l₁ ++ x :: l₂ ++ y :: l₃).length ≤ 12)
    (hyx : sortLess fieldName true y x = false) :
    [x, y].Sublist (goSort (l₁ ++ x :: l₂ ++ y :: l₃) fieldName true) := by
  unfold goSort sortSlice
  rw [insertionSortAux_eq_foldl]
  set less := sortLess fieldName true with hless
  have hxA2 : x ∈ insertBubble less x
      (List.foldl (fun a z => insertBubble less z a) [] l₁) := by
    obtain ⟨u, v, _, hres⟩ :=
      insertBubble_split less x (List.foldl (fun a z => insertBubble less z a) [] l₁)
    rw [hres]
    simp
  have hxA3 : x ∈ List.foldl (fun a z => insertBubble less z a)
      (insertBubble less x (List.foldl (fun a z => insertBubble less z a) [] l₁)) l₂ :=
    mem_foldl_insertBubble less x l₂ _ hxA2
  obtain ⟨u, v, hres, hxv⟩ := insertBubble_before less x y _ hxA3 hyx
  have h1 : [y, x].Sublist (insertBubble less y
      (List.foldl (fun a z => insertBubble less z a)
        (insertBubble less x (List.foldl (fun a z => insertBubble less z a) [] l₁)) l₂)) := by
    rw [hres]
    exact ((List.cons_sublist_cons.mpr (List.singleton_sublist.mpr hxv)).trans
      (List.sublist_append_right u (y :: v)))
  have hfinal := sublist_foldl_insertBubble less [y, x] l₃ _ h1
  have heq : List.foldl (fun a z => insertBubble less z a) [] (l₁ ++ x :: l₂ ++ y :: l₃)
      = List.foldl (fun a z => insertBubble less z a)
          (insertBubble less y
            (List.foldl (fun a z => insertBubble less z a)
              (insertBubble less x
                (List.foldl (fun a z => insertBubble less z a) [] l₁)) l₂)) l₃ := by
    rw [List.foldl_append, List.foldl_cons, List.foldl_append, List.foldl_cons]
  rw [heq]
  simpa using hfinal.reverse

/-- Counterexample to claim C2: two records with equal sort keys (both
`Age = 30`) are swapped by descending `Sort` — the descending comparator
`!less` reports `true` on tied pairs, so the standard library's
insertion sort (which Go's `sort.Slice` runs at this length) moves the
later record past the earlier one.  Sort is therefore not stable for
ties in the descending direction. -/
theorem c2_counterexample :
    getFieldValue (GoVal.vStruct [("Age", .vInt .iint 30), ("Name", .vStr "a")]) "Age"
      = .ok (.vInt .iint 30) ∧
    getFieldValue (GoVal.vStruct [("Age", .vInt .iint 30), ("Name", .vStr "b")]) "Age"
      = .ok (.vInt .iint 30) ∧
    goSort [GoVal.vStruct [("Age", .vInt .iint 30), ("Name", .vStr "a")],
            GoVal.vStruct [("Age", .vInt .iint 30), ("Name", .vStr "b")]] "Age" false
      = [GoVal.vStruct [("Age", .vInt .iint 30), ("Name", .vStr "b")],
         GoVal.vStruct [("Age", .vInt .iint 30), ("Name", .vStr "a")]] ∧
    GoVal.vStruct [("Age", .vInt .iint 30), ("Name", .vStr "a")]
      ≠ GoVal.vStruct [("Age", .vInt .iint 30), ("Name", .vStr "b")] := by
  refine ⟨rfl, rfl, rfl, ?_⟩
  intro h
  simp at h

/-- Witness for `c2_amended`: the same two tied records, ascending,
keep their original order. -/
theorem c2_amended_witness :
    [GoVal.vStruct [("Age", .vInt .iint 30), ("Name", .vStr "a")],
     GoVal.vStruct [("Age", .vInt .iint 30), ("Name", .vStr "b")]].Sublist
      (goSort ([] ++ GoVal.vStruct [("Age", .vInt .iint 30), ("Name", .vStr "a")] ::
        ([] ++ GoVal.vStruct [("Age", .vInt .iint 30), ("Name", .vStr "b")] :: []))
        "Age" true) :=
  c2_amended "Age" [] [] []
    (GoVal.vStruct [("Age", .vInt .iint 30), ("Name", .vStr "a")])
    (GoVal.vStruct [("Age", .vInt .iint 30), ("Name", .vStr "b")])
    (by decide) rfl

end Gofilter
